import Mathlib

/-!
# Verification of `single_particle_simulation.py`

A shallow embedding of the physics core of the n-particle Lennard-Jones
simulation, together with theorems settling the specification claims.

Python floats are modelled as real numbers (`ℝ`); `math.sin`, `math.cos`,
`math.atan2`, `math.hypot`, `math.sqrt` become the corresponding real
functions. Python's `atan2(y, x)` is the argument of the complex number
`x + y·i`, with `atan2 0 0 = 0` (the same convention Python uses).

The cosmetic fields of `Particle` (`color`, `thickness`) are never read by
the physics code (only by rendering), so they are omitted from the model.
The module-level constants `width`, `height`, `epsilon`, `sigma`,
`speed_multiplier` are passed as explicit parameters.
-/

noncomputable section

open Real

/-- Python's `math.atan2 y x`, i.e. the argument of the complex number
`x + y·i`. `atan2 0 0 = 0`, as in Python. -/
def atan2 (y x : ℝ) : ℝ := Complex.arg ⟨x, y⟩

/-- Python's `math.hypot x y = sqrt (x² + y²)`. -/
def hypot (x y : ℝ) : ℝ := Real.sqrt (x ^ 2 + y ^ 2)

/-- `add_vector((angle1, length1), (angle2, length2))` from the source:
converts both polar vectors to Cartesian components with the compass
convention `x = sin(angle)·length`, `y = cos(angle)·length`, and returns
the resultant `(angle, length)`. -/
def add_vector (v1 v2 : ℝ × ℝ) : ℝ × ℝ :=
  let x_component := Real.sin v1.1 * v1.2 + Real.sin v2.1 * v2.2
  let y_component := Real.cos v1.1 * v1.2 + Real.cos v2.1 * v2.2
  let length := hypot x_component y_component
  let angle := 0.5 * Real.pi - atan2 y_component x_component
  (angle, length)

/-- `lj_potential(epsilon, sigma, r)` from the source:
`4·ε·((σ/r)¹² − (σ/r)⁶)`. -/
def lj_potential (epsilon sigma r : ℝ) : ℝ :=
  4 * epsilon * ((sigma / r) ^ 12 - (sigma / r) ^ 6)

/-- `lj_force(epsilon, sigma, r)` from the source:
`(−24·ε)·(2·(σ¹²/r¹³) − (σ⁶/r⁷))`. -/
def lj_force (epsilon sigma r : ℝ) : ℝ :=
  (-24 * epsilon) * (2 * (sigma ^ 12 / r ^ 13) - sigma ^ 6 / r ^ 7)

/-- In Python, `lj_potential` raises `ZeroDivisionError` at `r = 0`
(`sigma/r` divides by zero); the fallible call is modelled as an `Option`. -/
def lj_potentialChecked (epsilon sigma r : ℝ) : Option ℝ :=
  if r = 0 then none else some (lj_potential epsilon sigma r)

/-- In Python, `lj_force` raises `ZeroDivisionError` at `r = 0`
(`sigma**12 / r**13` divides by zero); the fallible call is modelled as an
`Option`. -/
def lj_forceChecked (epsilon sigma r : ℝ) : Option ℝ :=
  if r = 0 then none else some (lj_force epsilon sigma r)

/-- The physics state of a `Particle` (`x`, `y`, `size`, `speed`, `angle`).
`color` and `thickness` are rendering-only and never read by the physics
code, so they are not modelled. -/
structure Particle where
  x : ℝ
  y : ℝ
  size : ℝ
  speed : ℝ
  angle : ℝ

instance : Inhabited Particle := ⟨⟨0, 0, 0, 0, 0⟩⟩

/-- `Particle.__init__((x, y), size)` followed by the explicit
`particle.speed = 0; particle.angle = 0` done at creation in `__main__`.
(`__init__` itself also sets `speed = 0`, `angle = 0`.) -/
def Particle.init (x y size : ℝ) : Particle :=
  { x := x, y := y, size := size, speed := 0, angle := 0 }

/-- `find_angle(a, b)` from the source:
`atan2(b.y − a.y, b.x − a.x) + π/2`. -/
def find_angle (a b : Particle) : ℝ :=
  atan2 (b.y - a.y) (b.x - a.x) + Real.pi / 2

/-- `particle_distance(a, b)` from the source:
`sqrt((a.x − b.x)² + (a.y − b.y)²)`. -/
def particle_distance (a b : Particle) : ℝ :=
  Real.sqrt ((a.x - b.x) ^ 2 + (a.y - b.y) ^ 2)

/-- `Particle.move` from the source, with the module constant
`speed_multiplier` passed explicitly:
`x += sin(angle)·speed·mult; y −= cos(angle)·speed·mult`. -/
def Particle.move (mult : ℝ) (p : Particle) : Particle :=
  { p with
    x := p.x + Real.sin p.angle * p.speed * mult
    y := p.y - Real.cos p.angle * p.speed * mult }

/-- First loop of `Particle.bounce`: `while x > width − size`.
Its body takes `x` strictly below `width − size`
(`bounceXHigh_guard_once`), so the loop executes its body at most once and
is denotationally this conditional. -/
def bounceXHigh (width : ℝ) (p : Particle) : Particle :=
  if p.x > width - p.size then
    { p with x := 2 * (width - p.size) - p.x, angle := -p.angle }
  else p

/-- Second loop of `Particle.bounce`: `while x < size`; its body takes `x`
strictly above `size` (`bounceXLow_guard_once`), so it runs at most once. -/
def bounceXLow (p : Particle) : Particle :=
  if p.x < p.size then
    { p with x := 2 * p.size - p.x, angle := -p.angle }
  else p

/-- Third loop of `Particle.bounce`: `while y > height − size`; its body
takes `y` strictly below `height − size` (`bounceYHigh_guard_once`), so it
runs at most once. -/
def bounceYHigh (height : ℝ) (p : Particle) : Particle :=
  if p.y > height - p.size then
    { p with y := 2 * (height - p.size) - p.y, angle := Real.pi - p.angle }
  else p

/-- Fourth loop of `Particle.bounce`: `while y < size`; its body takes `y`
strictly above `size` (`bounceYLow_guard_once`), so it runs at most once. -/
def bounceYLow (p : Particle) : Particle :=
  if p.y < p.size then
    { p with y := 2 * p.size - p.y, angle := Real.pi - p.angle }
  else p

/-- `Particle.bounce` from the source, with the module constants `width`
and `height` passed explicitly: the four `while` loops in source order.
Each loop body falsifies its own guard (the `*_guard_once` lemmas below),
so each `while` executes its body at most once and the whole method is
denotationally this composition of four conditionals. -/
def Particle.bounce (width height : ℝ) (p : Particle) : Particle :=
  bounceYLow (bounceYHigh height (bounceXLow (bounceXHigh width p)))

/-- After the body of `while x > width − size` runs once, its guard is
false: the loop executes at most one iteration. -/
theorem bounceXHigh_guard_once (width : ℝ) (p : Particle)
    (h : p.x > width - p.size) :
    ¬(2 * (width - p.size) - p.x > width - p.size) := by
  intro hc
  linarith

/-- After the body of `while x < size` runs once, its guard is false. -/
theorem bounceXLow_guard_once (p : Particle) (h : p.x < p.size) :
    ¬(2 * p.size - p.x < p.size) := by
  intro hc
  linarith

/-- After the body of `while y > height − size` runs once, its guard is
false. -/
theorem bounceYHigh_guard_once (height : ℝ) (p : Particle)
    (h : p.y > height - p.size) :
    ¬(2 * (height - p.size) - p.y > height - p.size) := by
  intro hc
  linarith

/-- After the body of `while y < size` runs once, its guard is false. -/
theorem bounceYLow_guard_once (p : Particle) (h : p.y < p.size) :
    ¬(2 * p.size - p.y < p.size) := by
  intro hc
  linarith

/-- The index pairs visited by `itertools.combinations(my_particles, 2)`,
in iteration order: `(0,1), (0,2), …, (0,n−1), (1,2), …` — for each
`i < n`, the pairs `(i, j)` with `j` ranging over `range(i+1, n)`. -/
def pairIndices (n : ℕ) : List (ℕ × ℕ) :=
  (List.range n).flatMap fun i =>
    (List.range' (i + 1) (n - (i + 1))).map fun j => (i, j)

/-- One iteration of the pair loop on the two particles `a`, `b` of a pair:
```
temp_lj_force = lj_force(epsilon, sigma, particle_distance(a, b))
temp_angle = find_angle(a, b)
(a.angle, a.speed) = add_vector((a.angle, a.speed), (temp_angle, temp_lj_force))
(b.angle, b.speed) = add_vector((b.angle, b.speed), (temp_angle+math.pi, temp_lj_force))
```
Returns the updated `(a, b)`. -/
def pairStep (epsilon sigma : ℝ) (a b : Particle) : Particle × Particle :=
  let temp_lj_force := lj_force epsilon sigma (particle_distance a b)
  let temp_angle := find_angle a b
  let av := add_vector (a.angle, a.speed) (temp_angle, temp_lj_force)
  let bv := add_vector (b.angle, b.speed) (temp_angle + Real.pi, temp_lj_force)
  ({ a with angle := av.1, speed := av.2 },
   { b with angle := bv.1, speed := bv.2 })

/-- One step of the pair-loop fold: read the two particles of the pair
from the list, run `pairStep`, write both back, and accumulate
`potential_energy += lj_potential(epsilon, sigma, particle_distance(a, b))`.
Python mutates the particle objects in place; here the list is updated at
the two indices of the pair. The `potential_energy` accumulation reads the
particles after their velocity update, as the source does (the update
never touches positions, so the distance is unchanged). -/
def forceStep (epsilon sigma : ℝ) (st : List Particle × ℝ) (ij : ℕ × ℕ) :
    List Particle × ℝ :=
  let a := st.1.getD ij.1 default
  let b := st.1.getD ij.2 default
  let ab := pairStep epsilon sigma a b
  ((st.1.set ij.1 ab.1).set ij.2 ab.2,
   st.2 + lj_potential epsilon sigma (particle_distance ab.1 ab.2))

/-- The full force pass of one tick: fold the pair loop over all pairs of
`itertools.combinations`, threading the particle list and the accumulated
`potential_energy`. -/
def forcePass (epsilon sigma : ℝ) (ps : List Particle) : List Particle × ℝ :=
  (pairIndices ps.length).foldl (forceStep epsilon sigma) (ps, 0)

/-- One tick of the `while running` loop, restricted to the physics
(rendering and event polling omitted): reset the energies, run the pair
loop, then for each particle accumulate `kinetic_energy += 0.5·speed²`,
call `move`, call `bounce`. Returns the updated particles and the
`(kinetic_energy, potential_energy)` pair of the tick. -/
def tick (epsilon sigma mult width height : ℝ) (ps : List Particle) :
    List Particle × ℝ × ℝ :=
  let fp := forcePass epsilon sigma ps
  let kinetic := (fp.1.map fun p => 0.5 * p.speed ^ 2).sum
  (fp.1.map fun p => (p.move mult).bounce width height, kinetic, fp.2)

/-- Python's `%` on reals with the semantics `a % b = a − b·⌊a/b⌋`
(for the positive moduli used here this is the value Python returns). -/
def pymod (a b : ℝ) : ℝ := a - b * ⌊a / b⌋

/-- Modelled from the spec, for comparison with `tick` (the code under
`src/` has no such step): "for each particle, clamp `speed` if it exceeds
`speed_limit` (policy: `speed = speed mod (speed_limit + 10)`), wrap
position modulo bounds if it exceeds the domain". -/
def clampWrapSpec (speed_limit width height : ℝ) (p : Particle) : Particle :=
  let p1 := if p.speed > speed_limit
    then { p with speed := pymod p.speed (speed_limit + 10) } else p
  let p2 := if p1.x < 0 ∨ p1.x > width
    then { p1 with x := pymod p1.x width } else p1
  if p2.y < 0 ∨ p2.y > height
    then { p2 with y := pymod p2.y height } else p2

/-- Modelled from the spec, for comparison with `tick`: the tick as §4.4
of the spec describes it — after the pair pass, clamp/wrap each particle,
then `move`, `bounce`, and accumulate `kinetic += 0.5·speed²`. -/
def tickSpec (speed_limit epsilon sigma mult width height : ℝ)
    (ps : List Particle) : List Particle × ℝ × ℝ :=
  let fp := forcePass epsilon sigma ps
  let clamped := fp.1.map (clampWrapSpec speed_limit width height)
  let moved := clamped.map fun p => (p.move mult).bounce width height
  ((moved), (moved.map fun p => 0.5 * p.speed ^ 2).sum, fp.2)

/-- `move` writes only the position: speed is unchanged. -/
theorem Particle.move_speed (mult : ℝ) (p : Particle) :
    (p.move mult).speed = p.speed := rfl

/-- `bounce` writes only position and angle: speed is unchanged on every
path through the four conditionals. -/
theorem Particle.bounce_speed (width height : ℝ) (p : Particle) :
    (p.bounce width height).speed = p.speed := by
  unfold Particle.bounce bounceXHigh bounceXLow bounceYHigh bounceYLow
  split <;> split <;> split <;> split <;> rfl

/-- `bounce` never changes the particle's size. -/
theorem Particle.bounce_size (width height : ℝ) (p : Particle) :
    (p.bounce width height).size = p.size := by
  unfold Particle.bounce bounceXHigh bounceXLow bounceYHigh bounceYLow
  split <;> split <;> split <;> split <;> rfl

/-- With a single particle there are no pairs, and the force pass is the
identity. -/
theorem forcePass_singleton (epsilon sigma : ℝ) (p : Particle) :
    forcePass epsilon sigma [p] = ([p], 0) := rfl

/-- `hypot x y` is the modulus of the complex number `x + y·i`. -/
theorem hypot_eq_abs (x y : ℝ) : hypot x y = Complex.abs ⟨x, y⟩ := by
  rw [hypot, Complex.abs_apply, Complex.normSq_mk]
  ring_nf

/-- The sine component of the polar result of `add_vector`'s conversion:
`sin (0.5·π − atan2 y x) · hypot x y = x`. -/
theorem sin_mul_hypot (x y : ℝ) :
    Real.sin (0.5 * Real.pi - atan2 y x) * hypot x y = x := by
  have h05 : (0.5 : ℝ) * Real.pi = Real.pi / 2 := by ring
  rw [h05, Real.sin_pi_div_two_sub, hypot_eq_abs, atan2]
  rcases eq_or_ne (⟨x, y⟩ : ℂ) 0 with hz | hz
  · have hx : x = 0 := congrArg Complex.re hz
    rw [hz, hx]
    simp
  · rw [Complex.cos_arg hz]
    have habs : Complex.abs ⟨x, y⟩ ≠ 0 := by
      simpa using (Complex.abs.ne_zero hz)
    field_simp

/-- The cosine component of the polar result of `add_vector`'s conversion:
`cos (0.5·π − atan2 y x) · hypot x y = y`. -/
theorem cos_mul_hypot (x y : ℝ) :
    Real.cos (0.5 * Real.pi - atan2 y x) * hypot x y = y := by
  have h05 : (0.5 : ℝ) * Real.pi = Real.pi / 2 := by ring
  rw [h05, Real.cos_pi_div_two_sub, hypot_eq_abs, atan2]
  rcases eq_or_ne (⟨x, y⟩ : ℂ) 0 with hz | hz
  · have hy : y = 0 := congrArg Complex.im hz
    rw [hz, hy]
    simp
  · rw [Complex.sin_arg]
    have habs : Complex.abs ⟨x, y⟩ ≠ 0 := by
      simpa using (Complex.abs.ne_zero hz)
    field_simp

/-- `add_vector` is exact vector addition in Cartesian coordinates, sine
(x) component. -/
theorem add_vector_sin (v1 v2 : ℝ × ℝ) :
    Real.sin (add_vector v1 v2).1 * (add_vector v1 v2).2 =
      Real.sin v1.1 * v1.2 + Real.sin v2.1 * v2.2 := by
  unfold add_vector
  exact sin_mul_hypot _ _

/-- `add_vector` is exact vector addition in Cartesian coordinates, cosine
(y) component. -/
theorem add_vector_cos (v1 v2 : ℝ × ℝ) :
    Real.cos (add_vector v1 v2).1 * (add_vector v1 v2).2 =
      Real.cos v1.1 * v1.2 + Real.cos v2.1 * v2.2 := by
  unfold add_vector
  exact cos_mul_hypot _ _

/-- The magnitude returned by `add_vector` is a Euclidean norm, hence
never negative. -/
theorem add_vector_length_nonneg (v1 v2 : ℝ × ℝ) :
    0 ≤ (add_vector v1 v2).2 :=
  Real.sqrt_nonneg _

/-- C8: `add_vector` (the spec's `combine`) is commutative in its two
polar-vector arguments. -/
theorem add_vector_comm (v1 v2 : ℝ × ℝ) :
    add_vector v1 v2 = add_vector v2 v1 := by
  unfold add_vector
  rw [add_comm (Real.sin v1.1 * v1.2), add_comm (Real.cos v1.1 * v1.2)]

/-- C9: `add_vector` is a total function on all real inputs (it is defined
here as a total Lean function, with `atan2 0 0 = 0` as in Python), and
whenever both input speeds are `0` the returned magnitude is `0`,
whatever the two input angles are — in particular for equal angles. -/
theorem add_vector_zero_length (a1 a2 : ℝ) :
    (add_vector (a1, 0) (a2, 0)).2 = 0 := by
  norm_num [add_vector, hypot]

/-- `lj_force` factors as a strictly negative coefficient times
`2·σ⁶ − r⁶`: its sign is the opposite of the sign of `2·σ⁶ − r⁶`. -/
theorem lj_force_factor (epsilon sigma r : ℝ) (hr : r ≠ 0) :
    lj_force epsilon sigma r =
      -(24 * epsilon) * (sigma ^ 6 / r ^ 13) * (2 * sigma ^ 6 - r ^ 6) := by
  unfold lj_force
  field_simp
  ring

/-- `(σ·2^(1/6))⁶ = 2·σ⁶`. -/
theorem sigma_mul_rt6_pow (sigma : ℝ) :
    (sigma * (2:ℝ) ^ ((1:ℝ)/6)) ^ (6:ℕ) = 2 * sigma ^ 6 := by
  have h2 : ((2:ℝ) ^ ((1:ℝ)/6)) ^ (6:ℕ) = 2 := by
    rw [← Real.rpow_natCast ((2:ℝ) ^ ((1:ℝ)/6)) 6,
      ← Real.rpow_mul (by norm_num : (0:ℝ) ≤ 2)]
    norm_num
  rw [mul_pow, h2]
  ring

/-- C1 (amended): for `r, ε, σ > 0`, the value returned by
`lj_force(epsilon, sigma, r)` is NEGATIVE when `r < σ·2^(1/6)`, zero at
`r = σ·2^(1/6)`, and POSITIVE when `r > σ·2^(1/6)`. The code returns the
derivative of the potential (not its negation), so with the pair loop
applying the value along the angle from `a` toward `b`, a negative return
is repulsive — the opposite of the spec's stated sign convention. -/
theorem lj_force_sign (epsilon sigma r : ℝ) (he : 0 < epsilon)
    (hs : 0 < sigma) (hr : 0 < r) :
    (r < sigma * (2:ℝ) ^ ((1:ℝ)/6) → lj_force epsilon sigma r < 0) ∧
    (r = sigma * (2:ℝ) ^ ((1:ℝ)/6) → lj_force epsilon sigma r = 0) ∧
    (sigma * (2:ℝ) ^ ((1:ℝ)/6) < r → 0 < lj_force epsilon sigma r) := by
  have hfac := lj_force_factor epsilon sigma r (ne_of_gt hr)
  have hcoef : -(24 * epsilon) * (sigma ^ 6 / r ^ 13) < 0 := by
    have h1 : 0 < sigma ^ 6 / r ^ 13 := div_pos (by positivity) (by positivity)
    nlinarith
  have hmin : 0 < sigma * (2:ℝ) ^ ((1:ℝ)/6) := by
    have : (0:ℝ) < (2:ℝ) ^ ((1:ℝ)/6) := Real.rpow_pos_of_pos (by norm_num) _
    positivity
  refine ⟨fun h => ?_, fun h => ?_, fun h => ?_⟩
  · have h6 : r ^ (6:ℕ) < (sigma * (2:ℝ) ^ ((1:ℝ)/6)) ^ (6:ℕ) :=
      (pow_lt_pow_iff_left₀ hr.le hmin.le (by norm_num)).mpr h
    rw [sigma_mul_rt6_pow] at h6
    rw [hfac]
    exact mul_neg_of_neg_of_pos hcoef (by linarith)
  · have h6 : r ^ (6:ℕ) = 2 * sigma ^ 6 := by
      rw [h, sigma_mul_rt6_pow]
    rw [hfac, h6]
    ring
  · have h6 : (sigma * (2:ℝ) ^ ((1:ℝ)/6)) ^ (6:ℕ) < r ^ (6:ℕ) :=
      (pow_lt_pow_iff_left₀ hmin.le hr.le (by norm_num)).mpr h
    rw [sigma_mul_rt6_pow] at h6
    rw [hfac]
    exact mul_pos_of_neg_of_neg hcoef (by linarith)

/-- C1 counterexample: at `ε = 1`, `σ = 1`, `r = 1` we have
`r < σ·2^(1/6)`, yet `lj_force 1 1 1 = −24 < 0` — not positive as the
claim states. -/
theorem lj_force_sign_counterexample :
    (1:ℝ) < 1 * (2:ℝ) ^ ((1:ℝ)/6) ∧ lj_force 1 1 1 < 0 := by
  constructor
  · rw [one_mul]
    exact (Real.one_lt_rpow_iff_of_pos (by norm_num)).mpr
      (Or.inl ⟨by norm_num, by norm_num⟩)
  · norm_num [lj_force]

/-- Witness for `lj_force_sign` at `ε = σ = r = 1`. -/
theorem lj_force_sign_witness :
    ((1:ℝ) < 1 * (2:ℝ) ^ ((1:ℝ)/6) → lj_force 1 1 1 < 0) ∧
    ((1:ℝ) = 1 * (2:ℝ) ^ ((1:ℝ)/6) → lj_force 1 1 1 = 0) ∧
    (1 * (2:ℝ) ^ ((1:ℝ)/6) < 1 → 0 < lj_force 1 1 1) :=
  lj_force_sign 1 1 1 one_pos one_pos one_pos

/-- C4: at `r = 0` both `lj_potential` and `lj_force` hit the
division-by-zero branch (`none` in the `Option` model of the Python
`ZeroDivisionError`); for every `r ≠ 0` they are defined and return the
formula value; hence under the callers' precondition `r > 0` the error
branch is unreachable. -/
theorem lj_checked_domain (epsilon sigma r : ℝ) :
    lj_potentialChecked epsilon sigma 0 = none ∧
    lj_forceChecked epsilon sigma 0 = none ∧
    (r ≠ 0 →
      lj_potentialChecked epsilon sigma r =
        some (lj_potential epsilon sigma r) ∧
      lj_forceChecked epsilon sigma r = some (lj_force epsilon sigma r)) ∧
    (0 < r →
      (lj_potentialChecked epsilon sigma r).isSome = true ∧
      (lj_forceChecked epsilon sigma r).isSome = true) := by
  refine ⟨by simp [lj_potentialChecked], by simp [lj_forceChecked],
    fun h => ⟨by simp [lj_potentialChecked, h], by simp [lj_forceChecked, h]⟩,
    fun h => ?_⟩
  have h0 : r ≠ 0 := ne_of_gt h
  simp [lj_potentialChecked, lj_forceChecked, h0]

/-- Witness for `lj_checked_domain` at `ε = σ = r = 1`. -/
theorem lj_checked_domain_witness :
    lj_potentialChecked 1 1 1 = some (lj_potential 1 1 1) ∧
    lj_forceChecked 1 1 1 = some (lj_force 1 1 1) :=
  (lj_checked_domain 1 1 1).2.2.1 one_ne_zero

/-- C10: for distinct points, `find_angle(b, a)` equals
`find_angle(a, b) + π` up to a multiple of `2π`, so the angle `θ + π` that
the pair loop hands to particle `b` points exactly from `b` toward `a`
(same sine and cosine, hence the same direction in `move`). -/
theorem find_angle_antisym (a b : Particle)
    (hne : ¬(b.x = a.x ∧ b.y = a.y)) :
    (∃ k : ℤ,
      find_angle b a = find_angle a b + Real.pi + k * (2 * Real.pi)) ∧
    Real.sin (find_angle b a) = Real.sin (find_angle a b + Real.pi) ∧
    Real.cos (find_angle b a) = Real.cos (find_angle a b + Real.pi) := by
  set z : ℂ := ⟨b.x - a.x, b.y - a.y⟩ with hzdef
  have hz : z ≠ 0 := by
    intro h
    have hre : b.x - a.x = 0 := congrArg Complex.re h
    have him : b.y - a.y = 0 := congrArg Complex.im h
    exact hne ⟨by linarith, by linarith⟩
  have hneg : (⟨a.x - b.x, a.y - b.y⟩ : ℂ) = -z := by
    rw [hzdef]
    apply Complex.ext <;> simp
  have hangle := Complex.arg_neg_coe_angle hz
  rw [← Real.Angle.coe_add] at hangle
  obtain ⟨k, hk⟩ := Real.Angle.angle_eq_iff_two_pi_dvd_sub.mp hangle
  have hba : find_angle b a = Complex.arg (-z) + Real.pi / 2 := by
    rw [find_angle, atan2, hneg]
  have hab : find_angle a b = Complex.arg z + Real.pi / 2 := by
    rw [find_angle, atan2]
  have heq : find_angle b a = find_angle a b + Real.pi + (k : ℝ) * (2 * Real.pi) := by
    rw [hba, hab]
    linarith [hk]
  refine ⟨⟨k, heq⟩, ?_, ?_⟩
  · rw [heq]
    exact Real.sin_add_int_mul_two_pi _ k
  · rw [heq]
    exact Real.cos_add_int_mul_two_pi _ k

/-- Witness for `find_angle_antisym` at `a = (0,0)`, `b = (1,0)`. -/
theorem find_angle_antisym_witness :
    (∃ k : ℤ,
      find_angle (Particle.init 1 0 1) (Particle.init 0 0 1) =
        find_angle (Particle.init 0 0 1) (Particle.init 1 0 1) + Real.pi +
          k * (2 * Real.pi)) ∧
    Real.sin (find_angle (Particle.init 1 0 1) (Particle.init 0 0 1)) =
      Real.sin (find_angle (Particle.init 0 0 1) (Particle.init 1 0 1) + Real.pi) ∧
    Real.cos (find_angle (Particle.init 1 0 1) (Particle.init 0 0 1)) =
      Real.cos (find_angle (Particle.init 0 0 1) (Particle.init 1 0 1) + Real.pi) :=
  find_angle_antisym (Particle.init 0 0 1) (Particle.init 1 0 1)
    (fun h => one_ne_zero h.1)

/-- C6: the kinetic energy the code accumulates before `move`/`bounce`
equals the sum of `0.5·speed²` over the post-`move`/`bounce` particles
that the spec describes: `move` and `bounce` never change `speed`, so the
two accumulation orders agree. -/
theorem kinetic_order_equiv (epsilon sigma mult width height : ℝ)
    (ps : List Particle) :
    (tick epsilon sigma mult width height ps).2.1 =
      (((tick epsilon sigma mult width height ps).1).map
        fun p => 0.5 * p.speed ^ 2).sum := by
  unfold tick
  simp only [List.map_map, Function.comp_def]
  have hfun : (fun p : Particle =>
      0.5 * ((Particle.bounce width height (Particle.move mult p)).speed) ^ 2) =
      fun p : Particle => 0.5 * p.speed ^ 2 := by
    funext p
    rw [Particle.bounce_speed, Particle.move_speed]
  rw [hfun]

/-- C3 counterexample: bounds `10 × 10`, radius `1` (so `2·radius < bound`),
pre-bounce position `x = 100` (ten bound-widths out, the spec's own
example), `y = 5`. Each `while` in `bounce` runs at most once, so the
x-high reflection maps `100 ↦ −82`, the x-low reflection maps
`−82 ↦ 84`, and `bounce` returns `x = 84 > width − radius = 9`: the
particle is left outside the domain. -/
theorem bounce_escape_counterexample :
    2 * (1:ℝ) < 10 ∧
    ((Particle.init 100 5 1).bounce 10 10).x = 84 ∧
    ¬(((Particle.init 100 5 1).bounce 10 10).x ≤ 10 - 1) := by
  norm_num [Particle.init, Particle.bounce, bounceXHigh, bounceXLow,
    bounceYHigh, bounceYLow]

/-- C3 (amended): `bounce` restores `radius ≤ position ≤ bound − radius`
on both axes provided `2·radius < bound` AND the pre-bounce position is at
most one reflection out of range on each axis, i.e. lies in
`[3·radius − bound, 3·bound − 5·radius]`; arbitrarily far positions are
NOT repaired (each `while` body falsifies its own guard, so each loop
reflects at most once, and a point far below the lower wall is reflected
past the upper wall and left there). -/
theorem bounce_within_bounds (width height : ℝ) (p : Particle)
    (_hW : 2 * p.size < width) (_hH : 2 * p.size < height)
    (hx1 : 3 * p.size - width ≤ p.x) (hx2 : p.x ≤ 3 * width - 5 * p.size)
    (hy1 : 3 * p.size - height ≤ p.y) (hy2 : p.y ≤ 3 * height - 5 * p.size) :
    p.size ≤ (p.bounce width height).x ∧
    (p.bounce width height).x ≤ width - p.size ∧
    p.size ≤ (p.bounce width height).y ∧
    (p.bounce width height).y ≤ height - p.size := by
  unfold Particle.bounce bounceXHigh bounceXLow bounceYHigh bounceYLow
  split_ifs <;> refine ⟨?_, ?_, ?_, ?_⟩ <;> simp_all <;> linarith

/-- Witness for `bounce_within_bounds`: bounds `10 × 10`, radius `1`,
in-range position `(5, 5)`. -/
theorem bounce_within_bounds_witness :
    (Particle.init 5 5 1).size ≤ ((Particle.init 5 5 1).bounce 10 10).x ∧
    ((Particle.init 5 5 1).bounce 10 10).x ≤ 10 - (Particle.init 5 5 1).size ∧
    (Particle.init 5 5 1).size ≤ ((Particle.init 5 5 1).bounce 10 10).y ∧
    ((Particle.init 5 5 1).bounce 10 10).y ≤ 10 - (Particle.init 5 5 1).size :=
  bounce_within_bounds 10 10 (Particle.init 5 5 1)
    (by norm_num [Particle.init]) (by norm_num [Particle.init])
    (by norm_num [Particle.init]) (by norm_num [Particle.init])
    (by norm_num [Particle.init]) (by norm_num [Particle.init])

/-- Both particles returned by `pairStep` carry a speed produced by
`add_vector`, i.e. a Euclidean norm: non-negative. -/
theorem pairStep_speed_nonneg (epsilon sigma : ℝ) (a b : Particle) :
    0 ≤ (pairStep epsilon sigma a b).1.speed ∧
    0 ≤ (pairStep epsilon sigma a b).2.speed :=
  ⟨Real.sqrt_nonneg _, Real.sqrt_nonneg _⟩

/-- A `forceStep` writes back only particles produced by `pairStep`, so it
preserves "all speeds non-negative". -/
theorem forceStep_speed_nonneg (epsilon sigma : ℝ) (st : List Particle × ℝ)
    (ij : ℕ × ℕ) (h : ∀ p ∈ st.1, 0 ≤ p.speed) :
    ∀ q ∈ (forceStep epsilon sigma st ij).1, 0 ≤ q.speed := by
  intro q hq
  unfold forceStep at hq
  rcases List.mem_or_eq_of_mem_set hq with hq1 | hq1
  · rcases List.mem_or_eq_of_mem_set hq1 with hq2 | hq2
    · exact h q hq2
    · rw [hq2]
      exact (pairStep_speed_nonneg epsilon sigma _ _).1
  · rw [hq1]
    exact (pairStep_speed_nonneg epsilon sigma _ _).2

/-- The pair-loop fold preserves "all speeds non-negative". -/
theorem foldl_forceStep_speed_nonneg (epsilon sigma : ℝ) :
    ∀ (l : List (ℕ × ℕ)) (st : List Particle × ℝ),
      (∀ p ∈ st.1, 0 ≤ p.speed) →
      ∀ q ∈ (l.foldl (forceStep epsilon sigma) st).1, 0 ≤ q.speed := by
  intro l
  induction l with
  | nil => intro st h; simpa using h
  | cons ij l ih =>
    intro st h
    rw [List.foldl_cons]
    exact ih _ (forceStep_speed_nonneg epsilon sigma st ij h)

/-- C7: speed is never negative: a particle is created with `speed = 0`,
every speed ever assigned comes out of `add_vector`, whose magnitude is a
Euclidean norm and hence non-negative, and consequently one tick maps a
list of particles with non-negative speeds to a list of particles with
non-negative speeds. -/
theorem speed_nonneg_invariant (epsilon sigma mult width height x y s : ℝ)
    (ps : List Particle) (h : ∀ p ∈ ps, 0 ≤ p.speed) :
    (Particle.init x y s).speed = 0 ∧
    (∀ v1 v2 : ℝ × ℝ, 0 ≤ (add_vector v1 v2).2) ∧
    ∀ q ∈ (tick epsilon sigma mult width height ps).1, 0 ≤ q.speed := by
  refine ⟨rfl, fun v1 v2 => Real.sqrt_nonneg _, ?_⟩
  intro q hq
  unfold tick at hq
  rcases List.mem_map.mp hq with ⟨p, hp, hpq⟩
  rw [← hpq, Particle.bounce_speed, Particle.move_speed]
  exact foldl_forceStep_speed_nonneg epsilon sigma _ _ h p hp

/-- Witness for `speed_nonneg_invariant`: one particle fresh from
`Particle.init` (speed `0`). -/
theorem speed_nonneg_invariant_witness :
    (Particle.init 1 2 3).speed = 0 ∧
    (∀ v1 v2 : ℝ × ℝ, 0 ≤ (add_vector v1 v2).2) ∧
    ∀ q ∈ (tick 1 1 1 10 10 [Particle.init 5 5 1]).1, 0 ≤ q.speed :=
  speed_nonneg_invariant 1 1 1 10 10 1 2 3 [Particle.init 5 5 1]
    (by simp [Particle.init])

/-- A pair `(i, j)` appears in the combination order iff `i < j < n`. -/
theorem pairIndices_mem (n i j : ℕ) :
    (i, j) ∈ pairIndices n ↔ i < j ∧ j < n := by
  unfold pairIndices
  simp only [List.mem_flatMap, List.mem_map, List.mem_range,
    List.mem_range'_1, Prod.mk.injEq]
  constructor
  · rintro ⟨a, ha, b, hb, hab1, hab2⟩
    omega
  · rintro ⟨h1, h2⟩
    exact ⟨i, by omega, j, ⟨by omega, by omega⟩, rfl, rfl⟩

/-- No pair appears twice in the combination order. -/
theorem pairIndices_nodup (n : ℕ) : (pairIndices n).Nodup := by
  unfold pairIndices
  refine List.nodup_flatMap.mpr ⟨fun i _ => ?_, ?_⟩
  · exact (List.nodup_range' _ _).map fun a b h => congrArg Prod.snd h
  · refine List.Pairwise.imp ?_ (List.pairwise_lt_range n)
    intro i1 i2 hlt p hp1 hp2
    rcases List.mem_map.mp hp1 with ⟨b1, _, hb1⟩
    rcases List.mem_map.mp hp2 with ⟨b2, _, hb2⟩
    have : i1 = i2 := by
      have h1 : p.1 = i1 := by rw [← hb1]
      have h2 : p.1 = i2 := by rw [← hb2]
      omega
    omega

/-- The x-component (compass convention: `sin(angle)·speed`) of a
particle's velocity. -/
def velX (p : Particle) : ℝ := Real.sin p.angle * p.speed

/-- The y-component (compass convention: `cos(angle)·speed`) of a
particle's velocity. -/
def velY (p : Particle) : ℝ := Real.cos p.angle * p.speed

/-- C5: each unordered pair `(i, j)` with `i < j < n` occurs exactly once
in the pair enumeration that `forcePass` folds over (and no other pair
occurs), and one `pairStep` updates `a` by `add_vector` with `(θ, f)` and
`b` with `(θ + π, f)`: in Cartesian components, `a` gains exactly the
impulse `(sin θ·f, cos θ·f)` and `b` gains exactly its negation — equal
magnitude, opposite direction. -/
theorem pair_enumeration_newton (n i j : ℕ) (epsilon sigma : ℝ)
    (a b : Particle) (hij : i < j) (hjn : j < n) :
    (pairIndices n).Nodup ∧
    (i, j) ∈ pairIndices n ∧
    (∀ i' j' : ℕ, (i', j') ∈ pairIndices n → i' < j' ∧ j' < n) ∧
    velX (pairStep epsilon sigma a b).1 = velX a +
      Real.sin (find_angle a b) *
        lj_force epsilon sigma (particle_distance a b) ∧
    velY (pairStep epsilon sigma a b).1 = velY a +
      Real.cos (find_angle a b) *
        lj_force epsilon sigma (particle_distance a b) ∧
    velX (pairStep epsilon sigma a b).2 = velX b -
      Real.sin (find_angle a b) *
        lj_force epsilon sigma (particle_distance a b) ∧
    velY (pairStep epsilon sigma a b).2 = velY b -
      Real.cos (find_angle a b) *
        lj_force epsilon sigma (particle_distance a b) := by
  refine ⟨?_, ?_, ?_, ?_, ?_, ?_, ?_⟩
  · exact pairIndices_nodup n
  · exact (pairIndices_mem n i j).mpr ⟨hij, hjn⟩
  · intro i' j' hmem
    exact (pairIndices_mem n i' j').mp hmem
  · exact add_vector_sin (a.angle, a.speed) (find_angle a b,
      lj_force epsilon sigma (particle_distance a b))
  · exact add_vector_cos (a.angle, a.speed) (find_angle a b,
      lj_force epsilon sigma (particle_distance a b))
  · have h := add_vector_sin (b.angle, b.speed)
      (find_angle a b + Real.pi,
       lj_force epsilon sigma (particle_distance a b))
    rw [Real.sin_add_pi] at h
    show Real.sin (add_vector (b.angle, b.speed) _).1 *
      (add_vector (b.angle, b.speed) _).2 = _
    rw [h]
    unfold velX
    ring
  · have h := add_vector_cos (b.angle, b.speed)
      (find_angle a b + Real.pi,
       lj_force epsilon sigma (particle_distance a b))
    rw [Real.cos_add_pi] at h
    show Real.cos (add_vector (b.angle, b.speed) _).1 *
      (add_vector (b.angle, b.speed) _).2 = _
    rw [h]
    unfold velY
    ring

/-- Witness for `pair_enumeration_newton` at `n = 2`, pair `(0, 1)`,
`ε = σ = 1`, particles at `(0,0)` and `(1,0)`. -/
theorem pair_enumeration_newton_witness :
    (pairIndices 2).Nodup ∧
    (0, 1) ∈ pairIndices 2 ∧
    (∀ i' j' : ℕ, (i', j') ∈ pairIndices 2 → i' < j' ∧ j' < 2) ∧
    velX (pairStep 1 1 (Particle.init 0 0 1) (Particle.init 1 0 1)).1 =
      velX (Particle.init 0 0 1) +
      Real.sin (find_angle (Particle.init 0 0 1) (Particle.init 1 0 1)) *
        lj_force 1 1
          (particle_distance (Particle.init 0 0 1) (Particle.init 1 0 1)) ∧
    velY (pairStep 1 1 (Particle.init 0 0 1) (Particle.init 1 0 1)).1 =
      velY (Particle.init 0 0 1) +
      Real.cos (find_angle (Particle.init 0 0 1) (Particle.init 1 0 1)) *
        lj_force 1 1
          (particle_distance (Particle.init 0 0 1) (Particle.init 1 0 1)) ∧
    velX (pairStep 1 1 (Particle.init 0 0 1) (Particle.init 1 0 1)).2 =
      velX (Particle.init 1 0 1) -
      Real.sin (find_angle (Particle.init 0 0 1) (Particle.init 1 0 1)) *
        lj_force 1 1
          (particle_distance (Particle.init 0 0 1) (Particle.init 1 0 1)) ∧
    velY (pairStep 1 1 (Particle.init 0 0 1) (Particle.init 1 0 1)).2 =
      velY (Particle.init 1 0 1) -
      Real.cos (find_angle (Particle.init 0 0 1) (Particle.init 1 0 1)) *
        lj_force 1 1
          (particle_distance (Particle.init 0 0 1) (Particle.init 1 0 1)) :=
  pair_enumeration_newton 2 0 1 1 1 (Particle.init 0 0 1)
    (Particle.init 1 0 1) (by decide) (by decide)

/-- The pair-loop fold never changes the number of particles. -/
theorem foldl_forceStep_length (epsilon sigma : ℝ) :
    ∀ (l : List (ℕ × ℕ)) (st : List Particle × ℝ),
      (l.foldl (forceStep epsilon sigma) st).1.length = st.1.length := by
  intro l
  induction l with
  | nil => intro st; rfl
  | cons ij l ih =>
    intro st
    rw [List.foldl_cons, ih]
    simp [forceStep]

/-- The force pass returns as many particles as it was given. -/
theorem forcePass_length (epsilon sigma : ℝ) (ps : List Particle) :
    (forcePass epsilon sigma ps).1.length = ps.length :=
  foldl_forceStep_length epsilon sigma _ _

/-- C2 counterexample: one particle at `(500, 500)` with `speed = 25`,
`speed_limit = 10`, bounds `1000 × 1000`. The claim (via `tickSpec`,
which implements the spec's clamp `speed ↦ speed mod (speed_limit + 10)`)
would reduce the speed to `25 mod 20 = 5` before `move`; the code's tick
leaves it at `25` — there is no clamp (nor wrap) in the per-particle
loop. -/
theorem tick_no_clamp_counterexample :
    (25:ℝ) > 10 ∧
    ((tick 1 1 1 1000 1000 [⟨500, 500, 10, 25, 0⟩]).1.getD 0
      default).speed = 25 ∧
    ((tickSpec 10 1 1 1 1000 1000 [⟨500, 500, 10, 25, 0⟩]).1.getD 0
      default).speed = 5 ∧
    (25:ℝ) ≠ 5 := by
  have hfloor : ⌊(25:ℝ) / 20⌋ = 1 := by
    rw [Int.floor_eq_iff]
    norm_num
  refine ⟨by norm_num, ?_, ?_, by norm_num⟩
  · simp [tick, forcePass_singleton, Particle.bounce_speed,
      Particle.move_speed]
  · simp only [tickSpec, forcePass_singleton, List.map_cons, List.map_nil,
      List.getD_cons_zero, Particle.bounce_speed, Particle.move_speed]
    simp only [clampWrapSpec, pymod]
    norm_num [hfloor]

/-- C2 (amended): the per-particle loop applies NO speed clamp and NO
position wrap between the pair pass and `move`/`bounce`: each particle
enters `move` and then `bounce` exactly as the force pass left it, and
since `move` and `bounce` never write `speed`, a particle whose
force-pass speed exceeds `speed_limit` still ends the tick with that
speed unreduced. -/
theorem tick_no_clamp (epsilon sigma mult width height : ℝ)
    (ps : List Particle) (i : ℕ) (hi : i < ps.length) :
    (tick epsilon sigma mult width height ps).1.getD i default =
      ((((forcePass epsilon sigma ps).1.getD i default).move mult).bounce
        width height) ∧
    ((tick epsilon sigma mult width height ps).1.getD i default).speed =
      ((forcePass epsilon sigma ps).1.getD i default).speed := by
  have hi' : i < (forcePass epsilon sigma ps).1.length := by
    rw [forcePass_length]
    exact hi
  have hi2 : i < ((forcePass epsilon sigma ps).1.map
      (fun p => (p.move mult).bounce width height)).length := by
    simpa using hi'
  have hmain : (tick epsilon sigma mult width height ps).1.getD i default =
      ((((forcePass epsilon sigma ps).1.getD i default).move mult).bounce
        width height) := by
    show ((forcePass epsilon sigma ps).1.map
      (fun p => (p.move mult).bounce width height)).getD i default = _
    rw [List.getD_eq_getElem _ _ hi2, List.getElem_map,
      ← List.getD_eq_getElem _ default hi']
  refine ⟨hmain, ?_⟩
  rw [hmain, Particle.bounce_speed, Particle.move_speed]

/-- Witness for `tick_no_clamp`: a single particle, index `0`. -/
theorem tick_no_clamp_witness :
    (tick 1 1 1 10 10 [Particle.init 5 5 1]).1.getD 0 default =
      ((((forcePass 1 1 [Particle.init 5 5 1]).1.getD 0 default).move
        1).bounce 10 10) ∧
    ((tick 1 1 1 10 10 [Particle.init 5 5 1]).1.getD 0 default).speed =
      ((forcePass 1 1 [Particle.init 5 5 1]).1.getD 0 default).speed :=
  tick_no_clamp 1 1 1 10 10 [Particle.init 5 5 1] 0 (by simp)
